import Mathlib

/-!
Verification of the referral-system core against its specification.

The definitions below are shallow embeddings of the Python sources:
 * `src/services/etl-service/src/loaders/base.py` (`UpsertResult`)
 * `src/services/etl-service/src/data_platform/loaders/bulk_loader.py`
   (`BulkDatabaseLoader.bulk_upsert`, `_execute_batch_with_retry`,
    `_parse_xmax_flags`, `_stream_batches`)
 * `src/services/etl-service/src/data_platform/crms/bullhorn/extractor.py`
   (`extract_candidates_paginated` / `extract_consultants_paginated`)
 * `src/services/ml-service/src/matching.py` (`MatchingService`)

Machine integers are modelled as `Nat`/`Int`, Python floats as `Rat`,
Python strings as `List Char` (so that `lower`/`strip`/`split` are
structurally recursive and kernel-computable), absent values as
`Option`, and fallible external calls as explicit outcome values.
`round` in Python and pandas/numpy `.round()` round half to even;
`roundHalfEven` models them on rationals.
-/

namespace ReferralSystem

/-- A Python string, modelled as its list of characters. -/
abbrev PyStr := List Char

/-- Round half to even on rationals, the rounding used by Python's
`round` and pandas/numpy `.round()`. -/
def roundHalfEven (q : ℚ) : ℤ :=
  let f : ℤ := ⌊q⌋
  let r : ℚ := q - f
  if r < 1/2 then f
  else if 1/2 < r then f + 1
  else if 2 ∣ f then f else f + 1

/-- Python `str.lower()` (ASCII case fold suffices for this code base). -/
def pyLower (s : PyStr) : PyStr := s.map Char.toLower

/-- Python `str.upper()`. -/
def pyUpper (s : PyStr) : PyStr := s.map Char.toUpper

/-- Python `str.strip()`: drop whitespace from both ends. -/
def pyStrip (s : PyStr) : PyStr :=
  ((s.dropWhile Char.isWhitespace).reverse.dropWhile Char.isWhitespace).reverse

/-- Auxiliary for `containsSub`: does `hay` start with `needle`? -/
def startsWith : PyStr → PyStr → Bool
  | _, [] => true
  | [], _ :: _ => false
  | a :: s, b :: t => a = b && startsWith s t

/-- Python `needle in hay` substring containment. -/
def containsSub (hay needle : PyStr) : Bool :=
  startsWith hay needle ||
    match hay with
    | [] => false
    | _ :: t => containsSub t needle

/-- Python `s.split(',')`. -/
def splitComma : PyStr → List PyStr
  | [] => [[]]
  | c :: t =>
    if c = ',' then [] :: splitComma t
    else
      match splitComma t with
      | [] => [[c]]
      | h :: r => (c :: h) :: r

/-! ## `loaders/base.py` -/

/-- `UpsertResult` from `loaders/base.py`: immutable result of a bulk
upsert operation, all counters defaulting to zero. -/
structure UpsertResult where
  inserted : ℕ := 0
  updated : ℕ := 0
  failed : ℕ := 0
  skipped : ℕ := 0
  total_batches : ℕ := 0
deriving DecidableEq, Repr

/-- `UpsertResult.merge` from `loaders/base.py`: pairwise sum of all
five counters. -/
def UpsertResult.merge (a b : UpsertResult) : UpsertResult :=
  { inserted := a.inserted + b.inserted
    updated := a.updated + b.updated
    failed := a.failed + b.failed
    skipped := a.skipped + b.skipped
    total_batches := a.total_batches + b.total_batches }

/-- The all-zero `UpsertResult()`, the value produced by the default
constructor in `loaders/base.py`. -/
def UpsertResult.empty : UpsertResult := {}

/-! ## `data_platform/loaders/bulk_loader.py`

`bulk_upsert` streams a DataFrame in fixed-size chunks, validates and
maps each row, and executes each chunk inside a savepoint with retry.
The database is external, so one execution attempt of a chunk is
modelled by an oracle giving, per batch number and attempt number, the
returned `xmax` flags (success), a transient connection-class error
(retryable), or a non-transient error. -/

/-- One execution attempt of a chunk, as seen by
`_execute_batch_with_retry`: either the `RETURNING xmax` flags, a
connection-class error (`psycopg2.OperationalError`/`InterfaceError`,
the `RETRYABLE_ERRORS`), or any other exception. -/
inductive AttemptOutcome where

  | ok (flags : List ℤ)
  | transientErr
  | fatalErr
deriving DecidableEq, Repr

/-- `_parse_xmax_flags`: an `xmax` of `0` marks a freshly inserted row,
anything else an update; returns `(inserted, updated)`. -/
def parseXmaxFlags (flags : List ℤ) : ℕ × ℕ :=
  let ins := (flags.filter (fun f => f = 0)).length
  (ins, flags.length - ins)

/-- `_execute_batch_with_retry` for one chunk: `att k` is the outcome of
attempt number `k`; at most `n` attempts are made (tenacity
`stop_after_attempt`), only transient errors are retried, and with
`reraise=True` an exhausted budget or a non-transient error propagates
the exception (`none`).  Every failing attempt rolls back to the
chunk's savepoint, so a `none` outcome leaves no writes behind. -/
def execRetry (att : ℕ → AttemptOutcome) : ℕ → ℕ → Option (List ℤ)
  | _, 0 => none
  | k, n + 1 =>
    match att k with
    | .ok flags => some flags
    | .fatalErr => none
    | .transientErr => execRetry att (k + 1) n

section BulkLoader

variable {Row Rec : Type}

/-- `_stream_batches`: yield the DataFrame in chunks of `bs` rows. -/
def streamBatches (bs : ℕ) (xs : List Row) : List (List Row) :=
  if h : xs.isEmpty ∨ bs = 0 then []
  else xs.take bs :: streamBatches bs (xs.drop bs)
termination_by xs.length
decreasing_by
  push_neg at h
  obtain ⟨h1, h2⟩ := h
  simp [List.isEmpty_iff] at h1
  simp [List.length_drop]
  cases xs with
  | nil => exact absurd rfl h1
  | cons a t => simp; omega

/-- The valid rows of a chunk, mapped by `mapper.to_record` — the
`records` list built by the row loop in `bulk_upsert`. -/
def validRecords (validate : Row → Bool) (toRecord : Row → Rec)
    (batch : List Row) : List Rec :=
  (batch.filter validate).map toRecord

/-- One iteration of the chunk loop in `bulk_upsert`: validate rows
(invalid rows are counted `skipped` and excluded), skip execution when
no valid rows remain, otherwise execute with retry; on success count
inserts/updates from the `xmax` flags and keep the chunk's writes, on
failure count the whole chunk `failed` and keep nothing (the savepoint
was rolled back). -/
def processBatch (validate : Row → Bool) (toRecord : Row → Rec)
    (attempts : ℕ → ℕ → List Rec → AttemptOutcome) (maxRetries : ℕ)
    (acc : UpsertResult × List Rec) (i : ℕ) (batch : List Row) :
    UpsertResult × List Rec :=
  let records := validRecords validate toRecord batch
  let skipped := (batch.filter (fun r => !validate r)).length
  if records.isEmpty then
    (acc.1.merge { skipped := skipped }, acc.2)
  else
    match execRetry (fun k => attempts i k records) 0 maxRetries with
    | some flags =>
      let p := parseXmaxFlags flags
      (acc.1.merge
        { inserted := p.1, updated := p.2, skipped := skipped,
          total_batches := 1 },
       acc.2 ++ records)
    | none =>
      (acc.1.merge { failed := records.length, skipped := skipped }, acc.2)

/-- The chunk loop of `bulk_upsert` over the streamed batches, threading
the running merged result and the list of committed chunk writes. -/
def runBatches (validate : Row → Bool) (toRecord : Row → Rec)
    (attempts : ℕ → ℕ → List Rec → AttemptOutcome) (maxRetries : ℕ) :
    ℕ → UpsertResult × List Rec → List (List Row) → UpsertResult × List Rec
  | _, acc, [] => acc
  | i, acc, b :: rest =>
    runBatches validate toRecord attempts maxRetries (i + 1)
      (processBatch validate toRecord attempts maxRetries acc i b) rest

/-- `BulkDatabaseLoader.bulk_upsert`: returns the merged `UpsertResult`
together with the writes that ended up committed (chunks whose
savepoint was released).  Row-level validation failures and chunk
failures are absorbed into the counters; no exception escapes. -/
def bulkUpsert (validate : Row → Bool) (toRecord : Row → Rec)
    (attempts : ℕ → ℕ → List Rec → AttemptOutcome) (maxRetries : ℕ)
    (bs : ℕ) (df : List Row) : UpsertResult × List Rec :=
  if df.isEmpty then (UpsertResult.empty, [])
  else
    runBatches validate toRecord attempts maxRetries 0
      (UpsertResult.empty, []) (streamBatches bs df)

/-- Whether the chunk at batch number `i` executes successfully (it has
valid rows and `_execute_batch_with_retry` returns instead of raising). -/
def batchSucceeds (validate : Row → Bool) (toRecord : Row → Rec)
    (attempts : ℕ → ℕ → List Rec → AttemptOutcome) (maxRetries : ℕ)
    (i : ℕ) (batch : List Row) : Bool :=
  let records := validRecords validate toRecord batch
  !records.isEmpty &&
    (execRetry (fun k => attempts i k records) 0 maxRetries).isSome

/-- Whether the chunk at batch number `i` fails (it has valid rows and
`_execute_batch_with_retry` raises after its retry budget). -/
def batchFails (validate : Row → Bool) (toRecord : Row → Rec)
    (attempts : ℕ → ℕ → List Rec → AttemptOutcome) (maxRetries : ℕ)
    (i : ℕ) (batch : List Row) : Bool :=
  let records := validRecords validate toRecord batch
  !records.isEmpty &&
    (execRetry (fun k => attempts i k records) 0 maxRetries).isNone

end BulkLoader

/-! ## `crms/bullhorn/extractor.py`

`extract_candidates_paginated` / `extract_consultants_paginated` share
the same loop.  The source is modelled by an oracle `pages : ℕ → List α`
giving the (already envelope-normalized) record list of each page; the
loop is given fuel, since with every page full and no maximum it does
not terminate.  The result carries the accumulated records and the
number of page fetches issued. -/

section Extractor

variable {α : Type}

/-- The `max_records and total_fetched >= max_records` stop test:
Python truthiness ignores a zero (or `None`) maximum. -/
def maxReached (maxRecords : Option ℕ) (total : ℕ) : Bool :=
  match maxRecords with
  | none => false
  | some m => m ≠ 0 && m ≤ total

/-- The `while True` pagination loop.  State: accumulated records,
current page number, `total_fetched`, `consecutive_empty_pages`, and
the count of fetches issued so far.  Each iteration fetches one page;
an empty page increments the empty counter and stops at three in a row;
a non-empty page is appended, then the maximum-records test and the
partial-page ("last page") test run in that order. -/
def extractLoop (pageSize : ℕ) (maxRecords : Option ℕ) (pages : ℕ → List α) :
    ℕ → List α → ℕ → ℕ → ℕ → ℕ → List α × ℕ
  | 0, acc, _, _, _, fetches => (acc, fetches)
  | fuel + 1, acc, page, total, consec, fetches =>
    let cs := pages page
    if cs.isEmpty then
      if 3 ≤ consec + 1 then (acc, fetches + 1)
      else extractLoop pageSize maxRecords pages fuel acc (page + 1) total
        (consec + 1) (fetches + 1)
    else
      let acc2 := acc ++ cs
      let total2 := total + cs.length
      if maxReached maxRecords total2 then (acc2, fetches + 1)
      else if cs.length < pageSize then (acc2, fetches + 1)
      else extractLoop pageSize maxRecords pages fuel acc2 (page + 1) total2
        0 (fetches + 1)

/-- `extract_candidates_paginated` (and identically
`extract_consultants_paginated`): run the pagination loop from
`start_page` with empty accumulator. -/
def extractPaginated (pageSize : ℕ) (maxRecords : Option ℕ)
    (startPage : ℕ) (pages : ℕ → List α) (fuel : ℕ) : List α × ℕ :=
  extractLoop pageSize maxRecords pages fuel [] startPage 0 0 0

end Extractor

/-! ## `ml-service/src/matching.py` -/

/-- `SKILL_SYNONYMS` from `MatchingService.__init__`, in dict insertion
order. -/
def SKILL_SYNONYMS : List (PyStr × List PyStr) :=
  [("javascript".toList,
    ["js".toList, "es6".toList, "es2015".toList, "ecmascript".toList]),
   ("typescript".toList, ["ts".toList]),
   ("python".toList, ["py".toList]),
   ("react".toList, ["reactjs".toList, "react.js".toList]),
   ("node".toList, ["nodejs".toList, "node.js".toList])]

/-- `canonicalize_skill`: lower-case and strip, then replace by the
first synonym-table entry whose canonical name or alias list hits. -/
def canonicalizeSkill (s : PyStr) : PyStr :=
  let sl := pyStrip (pyLower s)
  match SKILL_SYNONYMS.find? (fun p => p.2.contains sl || sl = p.1) with
  | some p => p.1
  | none => sl

/-- `score_candidate_skills` (the inner function of
`score_skills_vectorized`), for one candidate skill list. -/
def scoreCandidateSkills (requiredSkills preferredSkills
    candidateSkills : List PyStr) : ℤ :=
  if candidateSkills = [] then 0
  else
    let candCanon := candidateSkills.map canonicalizeSkill
    let reqCanon := requiredSkills.map canonicalizeSkill
    let reqMatched := (reqCanon.filter (fun s => candCanon.contains s)).length
    let prefCanon := preferredSkills.map canonicalizeSkill
    let prefMatched := (prefCanon.filter (fun s => candCanon.contains s)).length
    let denom := reqCanon.length * 2 + prefCanon.length
    let num := reqMatched * 2 + prefMatched
    if 0 < denom then roundHalfEven ((num : ℚ) / (denom : ℚ) * 100) else 0

/-- A year-month date, the granularity used by
`estimate_years_experience` (`(end.year - start.year) * 12 +
(end.month - start.month)`). -/
structure YM where
  year : ℤ
  month : ℤ
deriving DecidableEq, Repr

/-- One experience entry after date parsing: `none` stands for an entry
that is skipped (not a dict, missing `startDate`, or a date that fails
to parse); otherwise the parsed start date and optional end date
(`endDate` absent means ongoing: `datetime.now()` is substituted). -/
abbrev ExpEntry := Option (YM × Option YM)

/-- Month span of one experience entry as computed by
`estimate_years_experience`. -/
def entryMonths (now : YM) : ExpEntry → ℤ
  | none => 0
  | some (s, e) =>
    let en := e.getD now
    (en.year - s.year) * 12 + (en.month - s.month)

/-- `estimate_years_experience`: sum the positive month spans across
entries; `none` when the field is not a list or no positive span was
found (total months is zero). -/
def estimateYearsExperience (now : YM) :
    Option (List ExpEntry) → Option ℚ
  | none => none
  | some entries =>
    let total := entries.foldl
      (fun acc en =>
        let m := entryMonths now en
        if 0 < m then acc + m else acc) 0
    if 0 < total then some ((total : ℚ) / 12) else none

/-- `EXPERIENCE_LEVELS` from `MatchingService.__init__`. -/
def EXPERIENCE_LEVELS : List (PyStr × ℤ) :=
  [("ENTRY".toList, 1), ("MID".toList, 2), ("SENIOR".toList, 3),
   ("LEAD".toList, 4), ("EXECUTIVE".toList, 5)]

/-- The candidate level derived from estimated years by the threshold
chain `{<2, <5, <8, <12, else}` in `score_exp`. -/
def yearsToLevel (years : ℚ) : ℤ :=
  if years < 2 then 1
  else if years < 5 then 2
  else if years < 8 then 3
  else if years < 12 then 4
  else 5

/-- The level-distance score table of `score_exp`. -/
def diffScore (diff : ℕ) : ℕ :=
  if diff = 0 then 100
  else if diff = 1 then 75
  else if diff = 2 then 50
  else 25

/-- `score_experience_vectorized` restricted to one candidate: a falsy
(`None`/empty) target level scores a flat 50; otherwise the target
level string is upper-cased and looked up in `EXPERIENCE_LEVELS` with
default 3, the candidate's years are estimated (unknown scores 50), and
the absolute level distance is mapped through `diffScore`. -/
def scoreExperience (targetLevel : Option PyStr) (now : YM)
    (experienceData : Option (List ExpEntry)) : ℕ :=
  match targetLevel with
  | none => 50
  | some t =>
    if t = [] then 50
    else
      let tnum := ((EXPERIENCE_LEVELS.find?
        (fun p => p.1 = pyUpper t)).map Prod.snd).getD 3
      match estimateYearsExperience now experienceData with
      | none => 50
      | some years => diffScore (yearsToLevel years - tnum).natAbs

/-- `score_location_vectorized` restricted to one candidate: falsy
target or candidate location scores 50; `remote` on either side or an
exact case-insensitive match scores 100; matching first comma segments
(stripped) score 80; matching last comma segments score 60 provided
both sides have at least two segments; otherwise 30. -/
def scoreLocation (targetLocation candidateLocation : Option PyStr) : ℕ :=
  match targetLocation with
  | none => 50
  | some t =>
    if t = [] then 50
    else
      let tl := pyLower t
      match candidateLocation with
      | none => 50
      | some c =>
        if c = [] then 50
        else
          let cl := pyLower c
          if containsSub cl "remote".toList || containsSub tl "remote".toList
          then 100
          else if cl = tl then 100
          else
            let cp := splitComma cl
            let tp := splitComma tl
            if pyStrip (cp.headD []) = pyStrip (tp.headD []) then 80
            else if 2 ≤ cp.length && 2 ≤ tp.length &&
                pyStrip (cp.getLastD []) = pyStrip (tp.getLastD []) then 60
            else 30

/-- The `semantic_score` column of the bulk candidate query: `NULL`
when the candidate's `profileEmbedding` is `NULL` (or the position has
no valid embedding), otherwise `(1 - cosineDistance) * 100`. -/
def semanticScoreSql (cosineDistance : Option ℚ) : Option ℚ :=
  cosineDistance.map (fun d => (1 - d) * 100)

/-- `candidates_df['semantic_score'].fillna(50)`. -/
def fillSemantic (s : Option ℚ) : ℚ := s.getD 50

/-- The composite score of `compute_matches_for_position`:
`(semantic*0.6 + skill*0.24 + experience*0.12 + location*0.04)
.round().astype(int)`. -/
def overallScore (semantic : ℚ) (skill : ℤ) (experience location : ℕ) : ℤ :=
  roundHalfEven (semantic * (60/100) + (skill : ℚ) * (24/100) +
    (experience : ℚ) * (12/100) + (location : ℚ) * (4/100))

/-- A row of the `Match` table, with the columns named in
`bulk_upsert_matches`.  Timestamps are abstract naturals. -/
structure MatchRow where
  candidateId : String
  positionId : String
  overallScore : ℤ
  semanticScore : Option ℤ
  skillMatchScore : ℤ
  experienceScore : ℤ
  locationScore : ℤ
  matchedSkills : List String
  missingSkills : List String
  matchReason : String
  status : String
  createdAt : ℕ
  updatedAt : ℕ
deriving DecidableEq, Repr

/-- Key equality on `("candidateId", "positionId")`, the conflict
target of the upsert in `bulk_upsert_matches`. -/
def MatchRow.sameKey (a b : MatchRow) : Bool :=
  a.candidateId = b.candidateId && a.positionId = b.positionId

/-- The effect of one `INSERT ... ON CONFLICT ("candidateId",
"positionId") DO UPDATE` statement from `bulk_upsert_matches` on a
table with unique keys: if a row with the new row's key exists, only
the five score columns and `"updatedAt"` are overwritten from
`EXCLUDED`; otherwise the new row is appended. -/
def upsertMatchRow (tbl : List MatchRow) (new : MatchRow) : List MatchRow :=
  if tbl.any (fun r => r.sameKey new) then
    tbl.map (fun r =>
      if r.sameKey new then
        { r with
          overallScore := new.overallScore
          semanticScore := new.semanticScore
          skillMatchScore := new.skillMatchScore
          experienceScore := new.experienceScore
          locationScore := new.locationScore
          updatedAt := new.updatedAt }
      else r)
  else tbl ++ [new]

/-! ## Specification-side definitions

These follow the wording of the specification (not the code) and exist
only to be compared against the source-derived definitions above. -/

/-- The skill-score formula as the specification words it: canonicalize
every skill on both sides, then
`round((2*matchedRequired + matchedPreferred) /
(2*totalRequired + totalPreferred) * 100)`, `0` when the denominator is
`0`. -/
def skillScoreSpec (requiredSkills preferredSkills
    candidateSkills : List PyStr) : ℤ :=
  let cand := candidateSkills.map canonicalizeSkill
  let matchedRequired := ((requiredSkills.map canonicalizeSkill).filter
    (fun s => cand.contains s)).length
  let matchedPreferred := ((preferredSkills.map canonicalizeSkill).filter
    (fun s => cand.contains s)).length
  let totalRequired := (requiredSkills.map canonicalizeSkill).length
  let totalPreferred := (preferredSkills.map canonicalizeSkill).length
  if 2 * totalRequired + totalPreferred = 0 then 0
  else
    roundHalfEven (((2 * matchedRequired + matchedPreferred : ℕ) : ℚ) /
      ((2 * totalRequired + totalPreferred : ℕ) : ℚ) * 100)

/-- The location score exactly as the claim words it: 100 on `remote`
or an exact case-insensitive match, 80 when the first comma-delimited
segments match, 60 when the last comma-delimited segments match — with
no requirement that either side have at least two segments — else 30;
50 when no target location is given. -/
def scoreLocationClaim (targetLocation candidateLocation :
    Option PyStr) : ℕ :=
  match targetLocation with
  | none => 50
  | some t =>
    if t = [] then 50
    else
      let tl := pyLower t
      match candidateLocation with
      | none => 50
      | some c =>
        if c = [] then 50
        else
          let cl := pyLower c
          if containsSub cl "remote".toList || containsSub tl "remote".toList
          then 100
          else if cl = tl then 100
          else
            let cp := splitComma cl
            let tp := splitComma tl
            if pyStrip (cp.headD []) = pyStrip (tp.headD []) then 80
            else if pyStrip (cp.getLastD []) = pyStrip (tp.getLastD [])
            then 60
            else 30

/-! ## Helper lemmas -/

theorem roundHalfEven_zero : roundHalfEven 0 = 0 := by
  norm_num [roundHalfEven]

theorem roundHalfEven_nonneg {q : ℚ} (h : 0 ≤ q) : 0 ≤ roundHalfEven q := by
  have hf : (0 : ℤ) ≤ ⌊q⌋ := Int.floor_nonneg.mpr h
  simp only [roundHalfEven]
  split_ifs <;> omega

theorem roundHalfEven_le {q : ℚ} {n : ℤ} (h : q ≤ (n : ℚ)) :
    roundHalfEven q ≤ n := by
  have hf : ⌊q⌋ ≤ n := by
    have := Int.floor_le_floor h
    rwa [Int.floor_intCast] at this
  have hfl : (⌊q⌋ : ℚ) ≤ q := Int.floor_le q
  simp only [roundHalfEven]
  split_ifs with h1 h2 h3
  · exact hf
  · -- the fractional part exceeds 1/2, so ⌊q⌋ < n
    have hlt : (⌊q⌋ : ℚ) + 1/2 < (n : ℚ) := by
      linarith
    have : (⌊q⌋ : ℚ) < (n : ℚ) := by linarith
    have := Int.cast_lt.mp this
    omega
  · exact hf
  · -- tie case at exactly 1/2, so ⌊q⌋ < n
    have hhalf : (1 : ℚ)/2 ≤ q - (⌊q⌋ : ℚ) := le_of_not_lt h1
    have : (⌊q⌋ : ℚ) + 1/2 ≤ (n : ℚ) := by linarith
    have hlt : (⌊q⌋ : ℚ) < (n : ℚ) := by linarith
    have := Int.cast_lt.mp hlt
    omega

theorem scoreCandidateSkills_eval (r p c : List PyStr) (num denom : ℕ)
    (hc : ¬(c = []))
    (hnum : ((r.map canonicalizeSkill).filter
        (fun s => (c.map canonicalizeSkill).contains s)).length * 2 +
      ((p.map canonicalizeSkill).filter
        (fun s => (c.map canonicalizeSkill).contains s)).length = num)
    (hden : (r.map canonicalizeSkill).length * 2 +
      (p.map canonicalizeSkill).length = denom)
    (hpos : 0 < denom) :
    scoreCandidateSkills r p c =
      roundHalfEven ((num : ℚ) / (denom : ℚ) * 100) := by
  simp only [scoreCandidateSkills, if_neg hc, hnum, hden, if_pos hpos]

theorem scoreExperience_eval (t : PyStr) (now : YM)
    (e : Option (List ExpEntry)) (tnum : ℤ) (y : ℚ) (ht : ¬(t = []))
    (hlook : ((EXPERIENCE_LEVELS.find?
      (fun p => p.1 = pyUpper t)).map Prod.snd).getD 3 = tnum)
    (hy : estimateYearsExperience now e = some y) :
    scoreExperience (some t) now e =
      diffScore (yearsToLevel y - tnum).natAbs := by
  simp only [scoreExperience, if_neg ht, hlook, hy]

theorem execRetry_ok (att : ℕ → AttemptOutcome) :
    ∀ (n k : ℕ) (flags : List ℤ), execRetry att k n = some flags →
      ∃ j, att j = .ok flags := by
  intro n
  induction n with
  | zero =>
    intro k flags h
    exact absurd h (by simp [execRetry])
  | succ n ih =>
    intro k flags h
    cases hk : att k with
    | ok fl =>
      have h2 : some fl = some flags := by
        rw [← h]
        simp [execRetry, hk]
      exact ⟨k, by rw [hk, Option.some_inj.mp h2]⟩
    | transientErr =>
      have h2 : execRetry att (k + 1) n = some flags := by
        rw [← h]
        simp [execRetry, hk]
      exact ih (k + 1) flags h2
    | fatalErr =>
      have h2 : (none : Option (List ℤ)) = some flags := by
        rw [← h]
        simp [execRetry, hk]
      exact absurd h2 (by simp)

theorem execRetry_all_transient (att : ℕ → AttemptOutcome) :
    ∀ (n k : ℕ), (∀ j, j < n → att (k + j) = .transientErr) →
      execRetry att k n = none := by
  intro n
  induction n with
  | zero => intro k _; rfl
  | succ n ih =>
    intro k h
    have hk : att k = .transientErr := by
      have := h 0 (by omega)
      simpa using this
    simp only [execRetry, hk]
    exact ih (k + 1) (fun j hj => by
      have := h (j + 1) (by omega)
      rw [show k + 1 + j = k + (j + 1) by omega]
      exact this)

section BulkLoaderLemmas

variable {Row Rec : Type} (v : Row → Bool) (t : Row → Rec)
variable (a : ℕ → ℕ → List Rec → AttemptOutcome) (m : ℕ)

theorem streamBatches_cons (bs : ℕ) (xs : List Row)
    (hxs : xs.isEmpty = false) (hbs : 0 < bs) :
    streamBatches bs xs = xs.take bs :: streamBatches bs (xs.drop bs) := by
  rw [streamBatches]
  rw [dif_neg]
  push_neg
  exact ⟨by simp [hxs], by omega⟩

theorem streamBatches_flatten (bs : ℕ) (hbs : 0 < bs) :
    ∀ (n : ℕ) (xs : List Row), xs.length ≤ n →
      (streamBatches bs xs).flatten = xs := by
  intro n
  induction n with
  | zero =>
    intro xs hx
    have : xs = [] := List.eq_nil_of_length_eq_zero (Nat.le_zero.mp hx)
    subst this
    rw [streamBatches]
    simp
  | succ n ih =>
    intro xs hx
    cases hxe : xs.isEmpty with
    | true =>
      have : xs = [] := List.isEmpty_iff.mp hxe
      subst this
      rw [streamBatches]
      simp
    | false =>
      rw [streamBatches_cons bs xs hxe hbs]
      have hlen : (xs.drop bs).length ≤ n := by
        have h1 : xs.length ≠ 0 := by
          intro h0
          rw [List.eq_nil_of_length_eq_zero h0] at hxe
          simp at hxe
        simp only [List.length_drop]
        omega
      rw [List.flatten_cons, ih (xs.drop bs) hlen, List.take_append_drop]

theorem streamBatches_join (bs : ℕ) (hbs : 0 < bs) (xs : List Row) :
    (streamBatches bs xs).flatten = xs :=
  streamBatches_flatten bs hbs xs.length xs (le_refl _)

theorem filterLength_flatten (p : Row → Bool) :
    ∀ B : List (List Row),
      (B.map (fun b => (b.filter p).length)).sum = (B.flatten.filter p).length
  | [] => rfl
  | b :: rest => by
    simp only [List.map_cons, List.sum_cons, List.flatten_cons,
      List.filter_append, List.length_append]
    rw [filterLength_flatten p rest]

theorem processBatch_snd (acc : UpsertResult × List Rec) (i : ℕ)
    (b : List Row) :
    (processBatch v t a m acc i b).2 =
      acc.2 ++ (if batchSucceeds v t a m i b then validRecords v t b
        else []) := by
  cases hne : (validRecords v t b).isEmpty with
  | true => simp [processBatch, hne, batchSucceeds]
  | false =>
    cases hex : execRetry (fun k => a i k (validRecords v t b)) 0 m with
    | none => simp [processBatch, hne, hex, batchSucceeds]
    | some flags => simp [processBatch, hne, hex, batchSucceeds]

theorem processBatch_failed (acc : UpsertResult × List Rec) (i : ℕ)
    (b : List Row) :
    (processBatch v t a m acc i b).1.failed = acc.1.failed +
      (if batchFails v t a m i b then (validRecords v t b).length
        else 0) := by
  cases hne : (validRecords v t b).isEmpty with
  | true => simp [processBatch, hne, batchFails, UpsertResult.merge]
  | false =>
    cases hex : execRetry (fun k => a i k (validRecords v t b)) 0 m with
    | none => simp [processBatch, hne, hex, batchFails, UpsertResult.merge]
    | some flags =>
      simp [processBatch, hne, hex, batchFails, UpsertResult.merge]

theorem processBatch_skipped (acc : UpsertResult × List Rec) (i : ℕ)
    (b : List Row) :
    (processBatch v t a m acc i b).1.skipped = acc.1.skipped +
      (b.filter (fun r => !v r)).length := by
  cases hne : (validRecords v t b).isEmpty with
  | true => simp [processBatch, hne, UpsertResult.merge]
  | false =>
    cases hex : execRetry (fun k => a i k (validRecords v t b)) 0 m with
    | none => simp [processBatch, hne, hex, UpsertResult.merge]
    | some flags => simp [processBatch, hne, hex, UpsertResult.merge]

theorem processBatch_sum (acc : UpsertResult × List Rec) (i : ℕ)
    (b : List Row)
    (hflags : ∀ k recs flags, a i k recs = .ok flags →
      flags.length = recs.length) :
    (processBatch v t a m acc i b).1.inserted +
      (processBatch v t a m acc i b).1.updated +
      (processBatch v t a m acc i b).1.failed +
      (processBatch v t a m acc i b).1.skipped =
    (acc.1.inserted + acc.1.updated + acc.1.failed + acc.1.skipped) +
      b.length := by
  have hpart := @List.length_eq_length_filter_add _ b v
  have hval : (validRecords v t b).length = (b.filter v).length :=
    List.length_map _ _
  cases hne : (validRecords v t b).isEmpty with
  | true =>
    have hz : (validRecords v t b).length = 0 := by
      rw [List.isEmpty_iff.mp hne]
      rfl
    simp only [processBatch, hne, if_true, UpsertResult.merge]
    simp [UpsertResult.merge]
    omega
  | false =>
    cases hex : execRetry (fun k => a i k (validRecords v t b)) 0 m with
    | none =>
      simp only [processBatch, hne, Bool.false_eq_true, if_false, hex]
      simp [UpsertResult.merge]
      omega
    | some flags =>
      obtain ⟨j, hj⟩ := execRetry_ok _ m 0 flags hex
      have hlen : flags.length = (validRecords v t b).length :=
        hflags j _ flags hj
      have hins : (flags.filter (fun f => f = 0)).length ≤ flags.length :=
        List.length_filter_le _ _
      simp only [processBatch, hne, Bool.false_eq_true, if_false, hex]
      simp [UpsertResult.merge, parseXmaxFlags]
      omega

theorem runBatches_committed {Row Rec : Type} (v : Row → Bool)
    (t : Row → Rec) (a : ℕ → ℕ → List Rec → AttemptOutcome) (m : ℕ) :
    ∀ (B : List (List Row)) (i : ℕ) (acc : UpsertResult × List Rec),
      (runBatches v t a m i acc B).2 =
        acc.2 ++ ((List.enumFrom i B).filter
          (fun p => batchSucceeds v t a m p.1 p.2)).flatMap
          (fun p => validRecords v t p.2)
  | [], i, acc => by simp [runBatches]
  | b :: rest, i, acc => by
    simp only [runBatches]
    rw [runBatches_committed v t a m rest (i + 1)
      (processBatch v t a m acc i b)]
    rw [processBatch_snd v t a m acc i b]
    rw [List.enumFrom_cons]
    cases hs : batchSucceeds v t a m i b with
    | true => simp [List.filter_cons, hs, List.append_assoc]
    | false => simp [List.filter_cons, hs]

theorem runBatches_failed {Row Rec : Type} (v : Row → Bool)
    (t : Row → Rec) (a : ℕ → ℕ → List Rec → AttemptOutcome) (m : ℕ) :
    ∀ (B : List (List Row)) (i : ℕ) (acc : UpsertResult × List Rec),
      (runBatches v t a m i acc B).1.failed =
        acc.1.failed + (((List.enumFrom i B).filter
          (fun p => batchFails v t a m p.1 p.2)).map
          (fun p => (validRecords v t p.2).length)).sum
  | [], i, acc => by simp [runBatches]
  | b :: rest, i, acc => by
    simp only [runBatches]
    rw [runBatches_failed v t a m rest (i + 1)
      (processBatch v t a m acc i b)]
    rw [processBatch_failed v t a m acc i b]
    rw [List.enumFrom_cons]
    cases hf : batchFails v t a m i b with
    | true =>
      simp only [List.filter_cons, hf, if_true, List.map_cons,
        List.sum_cons]
      omega
    | false =>
      simp only [List.filter_cons, hf, Bool.false_eq_true, if_false,
        if_true]
      omega

theorem runBatches_skipped {Row Rec : Type} (v : Row → Bool)
    (t : Row → Rec) (a : ℕ → ℕ → List Rec → AttemptOutcome) (m : ℕ) :
    ∀ (B : List (List Row)) (i : ℕ) (acc : UpsertResult × List Rec),
      (runBatches v t a m i acc B).1.skipped =
        acc.1.skipped +
          (B.map (fun b => (b.filter (fun r => !v r)).length)).sum
  | [], i, acc => by simp [runBatches]
  | b :: rest, i, acc => by
    simp only [runBatches]
    rw [runBatches_skipped v t a m rest (i + 1)
      (processBatch v t a m acc i b)]
    rw [processBatch_skipped v t a m acc i b]
    simp only [List.map_cons, List.sum_cons]
    omega

theorem runBatches_sum {Row Rec : Type} (v : Row → Bool)
    (t : Row → Rec) (a : ℕ → ℕ → List Rec → AttemptOutcome) (m : ℕ)
    (hflags : ∀ i k recs flags, a i k recs = .ok flags →
      flags.length = recs.length) :
    ∀ (B : List (List Row)) (i : ℕ) (acc : UpsertResult × List Rec),
      (runBatches v t a m i acc B).1.inserted +
        (runBatches v t a m i acc B).1.updated +
        (runBatches v t a m i acc B).1.failed +
        (runBatches v t a m i acc B).1.skipped =
      (acc.1.inserted + acc.1.updated + acc.1.failed + acc.1.skipped) +
        (B.map List.length).sum
  | [], i, acc => by simp [runBatches]
  | b :: rest, i, acc => by
    simp only [runBatches]
    rw [runBatches_sum v t a m hflags rest (i + 1)
      (processBatch v t a m acc i b)]
    rw [processBatch_sum v t a m acc i b (fun k recs flags h =>
      hflags i k recs flags h)]
    simp only [List.map_cons, List.sum_cons]
    omega

end BulkLoaderLemmas

theorem extractLoop_succ {α : Type} (ps : ℕ) (mr : Option ℕ)
    (pages : ℕ → List α) (fuel : ℕ) (acc : List α)
    (page total consec fetches : ℕ) :
    extractLoop ps mr pages (fuel + 1) acc page total consec fetches =
      (if (pages page).isEmpty then
        if 3 ≤ consec + 1 then (acc, fetches + 1)
        else extractLoop ps mr pages fuel acc (page + 1) total (consec + 1)
          (fetches + 1)
      else
        if maxReached mr (total + (pages page).length) then
          (acc ++ pages page, fetches + 1)
        else if (pages page).length < ps then
          (acc ++ pages page, fetches + 1)
        else extractLoop ps mr pages fuel (acc ++ pages page) (page + 1)
          (total + (pages page).length) 0 (fetches + 1)) := rfl

theorem extractLoop_step_full {α : Type} (ps : ℕ) (mr : Option ℕ)
    (pages : ℕ → List α) (fuel : ℕ) (acc : List α)
    (page total consec fetches : ℕ)
    (hne : (pages page).isEmpty = false)
    (hm : maxReached mr (total + (pages page).length) = false)
    (hp : ¬ (pages page).length < ps) :
    extractLoop ps mr pages (fuel + 1) acc page total consec fetches =
      extractLoop ps mr pages fuel (acc ++ pages page) (page + 1)
        (total + (pages page).length) 0 (fetches + 1) := by
  rw [extractLoop_succ]
  simp only [hne, Bool.false_eq_true, if_false, hm, if_neg hp]

theorem extractLoop_stop_last {α : Type} (ps : ℕ) (mr : Option ℕ)
    (pages : ℕ → List α) (fuel : ℕ) (acc : List α)
    (page total consec fetches : ℕ)
    (hne : (pages page).isEmpty = false)
    (hm : maxReached mr (total + (pages page).length) = false)
    (hp : (pages page).length < ps) :
    extractLoop ps mr pages (fuel + 1) acc page total consec fetches =
      (acc ++ pages page, fetches + 1) := by
  rw [extractLoop_succ]
  simp only [hne, Bool.false_eq_true, if_false, hm, if_pos hp]

theorem extractLoop_fetches_ge {α : Type} (ps : ℕ) (mr : Option ℕ)
    (pages : ℕ → List α) :
    ∀ (fuel : ℕ) (acc : List α) (page total consec fetches : ℕ),
      fetches ≤ (extractLoop ps mr pages fuel acc page total consec
        fetches).2 := by
  intro fuel
  induction fuel with
  | zero =>
    intro acc page total consec fetches
    exact le_refl _
  | succ n ih =>
    intro acc page total consec fetches
    rw [extractLoop_succ]
    split_ifs
    · exact Nat.le_succ _
    · exact le_trans (Nat.le_succ _) (ih _ _ _ _ _)
    · exact Nat.le_succ _
    · exact Nat.le_succ _
    · exact le_trans (Nat.le_succ _) (ih _ _ _ _ _)

theorem extractLoop_fetches_lt {α : Type} (ps : ℕ) (mr : Option ℕ)
    (pages : ℕ → List α) (fuel : ℕ) (acc : List α)
    (page total consec fetches : ℕ) (hfuel : 1 ≤ fuel) :
    fetches + 1 ≤ (extractLoop ps mr pages fuel acc page total consec
      fetches).2 := by
  cases fuel with
  | zero => omega
  | succ n =>
    rw [extractLoop_succ]
    split_ifs
    · exact le_refl _
    · exact extractLoop_fetches_ge ps mr pages _ _ _ _ _ _
    · exact le_refl _
    · exact le_refl _
    · exact extractLoop_fetches_ge ps mr pages _ _ _ _ _ _

theorem maxReached_iff (mr : Option ℕ) (t : ℕ) :
    maxReached mr t = true ↔ ∃ m, mr = some m ∧ ¬ m = 0 ∧ m ≤ t := by
  cases mr <;> simp [maxReached]

theorem isEmpty_false_of_ne_nil {α : Type} {l : List α} (h : ¬ l = []) :
    l.isEmpty = false := by
  cases l with
  | nil => exact absurd rfl h
  | cons a t => rfl

theorem scoreCandidateSkills_bounds (r p c : List PyStr) :
    0 ≤ scoreCandidateSkills r p c ∧ scoreCandidateSkills r p c ≤ 100 := by
  by_cases hc : c = []
  · subst hc
    have h0 : scoreCandidateSkills r p [] = 0 := rfl
    rw [h0]
    norm_num
  · simp only [scoreCandidateSkills, if_neg hc]
    set cc := c.map canonicalizeSkill with hcc
    set m1 := ((r.map canonicalizeSkill).filter
      (fun s => cc.contains s)).length with hm1d
    set m2 := ((p.map canonicalizeSkill).filter
      (fun s => cc.contains s)).length with hm2d
    set t1 := (r.map canonicalizeSkill).length with ht1d
    set t2 := (p.map canonicalizeSkill).length with ht2d
    have hm1 : m1 ≤ t1 := List.length_filter_le _ _
    have hm2 : m2 ≤ t2 := List.length_filter_le _ _
    split_ifs with hd
    · have hnum : (m1 * 2 + m2 : ℕ) ≤ (t1 * 2 + t2 : ℕ) := by omega
      have hdq : (0 : ℚ) < ((t1 * 2 + t2 : ℕ) : ℚ) := by exact_mod_cast hd
      constructor
      · exact roundHalfEven_nonneg (by positivity)
      · apply roundHalfEven_le
        have hle1 : ((m1 * 2 + m2 : ℕ) : ℚ) / ((t1 * 2 + t2 : ℕ) : ℚ) ≤ 1 :=
          (div_le_one hdq).mpr (by exact_mod_cast hnum)
        have h100 : ((100 : ℤ) : ℚ) = 100 := by norm_num
        rw [h100]
        nlinarith [hle1]
    · norm_num

theorem diffScore_bounds (d : ℕ) :
    25 ≤ diffScore d ∧ diffScore d ≤ 100 := by
  simp only [diffScore]
  split_ifs <;> omega

theorem scoreExperience_bounds (t : Option PyStr) (now : YM)
    (e : Option (List ExpEntry)) :
    25 ≤ scoreExperience t now e ∧ scoreExperience t now e ≤ 100 := by
  cases t with
  | none => norm_num [scoreExperience]
  | some s =>
    cases hy : estimateYearsExperience now e with
    | none =>
      simp only [scoreExperience, hy]
      split_ifs <;> norm_num
    | some y =>
      simp only [scoreExperience, hy]
      split_ifs with hs
      · norm_num
      · exact diffScore_bounds _

theorem scoreLocation_bounds (t c : Option PyStr) :
    30 ≤ scoreLocation t c ∧ scoreLocation t c ≤ 100 := by
  cases t with
  | none => norm_num [scoreLocation]
  | some s =>
    cases c with
    | none =>
      simp only [scoreLocation]
      split_ifs <;> norm_num
    | some d =>
      simp only [scoreLocation]
      split_ifs <;> norm_num

/-! ## Claim theorems -/

/-- C4: For all UpsertResult values a, b, c, merge is associative and
commutative, and the all-zero UpsertResult is a two-sided identity:
UpsertResult forms a commutative monoid under merge. -/
theorem upsertResult_merge_comm_monoid :
    (∀ a b c : UpsertResult, (a.merge b).merge c = a.merge (b.merge c)) ∧
    (∀ a b : UpsertResult, a.merge b = b.merge a) ∧
    (∀ a : UpsertResult,
      UpsertResult.empty.merge a = a ∧ a.merge UpsertResult.empty = a) := by
  refine ⟨?_, ?_, ?_⟩
  · intro a b c
    simp [UpsertResult.merge, Nat.add_assoc]
  · intro a b
    simp [UpsertResult.merge, Nat.add_comm]
  · intro a
    constructor <;> simp [UpsertResult.merge, UpsertResult.empty]

/-- C10: When a target location is given but the candidate's location
is missing (`None`) or empty, `score_loc` returns the default 50, not
the mismatch score 30. -/
theorem location_score_empty_candidate_default :
    ∀ t : PyStr, scoreLocation (some t) none = 50 ∧
      scoreLocation (some t) (some []) = 50 := by
  intro t
  constructor <;> (simp only [scoreLocation]; split_ifs <;> rfl)

/-- C9: When `bulk_upsert_matches` hits an existing
`(candidateId, positionId)` row, the table keeps its size, non-matching
rows are untouched, and the matching row has exactly the five score
columns and `updatedAt` overwritten — `candidateId`, `positionId`,
`matchedSkills`, `missingSkills`, `matchReason`, `status` and
`createdAt` (in particular `status`) are preserved from the existing
row. -/
theorem match_upsert_preserves_status
    (tbl : List MatchRow) (new : MatchRow)
    (hconflict : tbl.any (fun r => r.sameKey new) = true) :
    (upsertMatchRow tbl new).length = tbl.length ∧
    (∀ r ∈ tbl, r.sameKey new = false → r ∈ upsertMatchRow tbl new) ∧
    (∀ r ∈ tbl, r.sameKey new = true →
      { r with
        overallScore := new.overallScore
        semanticScore := new.semanticScore
        skillMatchScore := new.skillMatchScore
        experienceScore := new.experienceScore
        locationScore := new.locationScore
        updatedAt := new.updatedAt } ∈ upsertMatchRow tbl new) := by
  unfold upsertMatchRow
  rw [if_pos hconflict]
  refine ⟨List.length_map tbl _, ?_, ?_⟩
  · intro r hr hkey
    exact List.mem_map.mpr ⟨r, hr, by simp [hkey]⟩
  · intro r hr hkey
    exact List.mem_map.mpr ⟨r, hr, by simp [hkey]⟩

/-- Witness for C9 at a concrete table: a conflicting upsert keeps the
row count at one. -/
theorem match_upsert_preserves_status_witness :
    (upsertMatchRow
      [⟨"c1", "p1", 40, none, 10, 20, 30, [], [], "Automated match",
        "CONTACTED", 7, 7⟩]
      ⟨"c1", "p1", 90, some 95, 80, 75, 60, [], [], "Automated match",
        "PENDING", 9, 9⟩).length =
    [(⟨"c1", "p1", 40, none, 10, 20, 30, [], [], "Automated match",
        "CONTACTED", 7, 7⟩ : MatchRow)].length :=
  (match_upsert_preserves_status _ _ (by decide)).1

/-- C5: The skill score equals the specification formula
`round((2*matchedRequired + matchedPreferred) /
(2*totalRequired + totalPreferred) * 100)` over canonicalized skills
(0 when the denominator is 0), and the worked example
required={python, react}, preferred={aws},
candidate={py, reactjs} scores 80. -/
theorem skill_score_matches_spec :
    (∀ r p c, scoreCandidateSkills r p c = skillScoreSpec r p c) ∧
    scoreCandidateSkills ["python".toList, "react".toList] ["aws".toList]
      ["py".toList, "reactjs".toList] = 80 := by
  constructor
  · intro r p c
    by_cases hc : c = []
    · subst hc
      have hL : scoreCandidateSkills r p [] = 0 := rfl
      rw [hL]
      have hm : ∀ l : List PyStr,
          l.filter (fun s => ([] : List PyStr).contains s) = [] := by
        intro l
        simp
      symm
      simp only [skillScoreSpec, List.map_nil, hm, List.length_nil,
        Nat.mul_zero, Nat.zero_add, Nat.zero_mul, Nat.add_zero]
      split_ifs with h
      · rfl
      · rw [Nat.cast_zero, zero_div, zero_mul, roundHalfEven_zero]
    · simp only [scoreCandidateSkills, skillScoreSpec, if_neg hc]
      have e1 : ∀ a b : ℕ, a * 2 + b = 2 * a + b := fun a b => by omega
      rw [e1, e1]
      split_ifs with h1 h2 <;> first | rfl | omega
  · rw [scoreCandidateSkills_eval _ _ _ 4 5 (by decide) (by decide)
      (by decide) (by decide)]
    norm_num [roundHalfEven]

/-- C6 counterexample: the claim's worked example fails on the code.
A target level SENIOR (mapped to 3) and a candidate with 6 years of
experience (one entry from 2020-01 to 2026-01, 72 months) lands in the
`< 8` bucket, which the code numbers 3 — the same as SENIOR — so the
distance is 0 and the score is 100, not the claimed 75. -/
theorem experience_score_senior_six_years_counterexample :
    scoreExperience (some "SENIOR".toList) ⟨2026, 1⟩
        (some [some (⟨2020, 1⟩, some ⟨2026, 1⟩)]) = 100 ∧
    ¬ scoreExperience (some "SENIOR".toList) ⟨2026, 1⟩
        (some [some (⟨2020, 1⟩, some ⟨2026, 1⟩)]) = 75 := by
  have hy : estimateYearsExperience ⟨2026, 1⟩
      (some [some (⟨2020, 1⟩, some ⟨2026, 1⟩)]) = some 6 := by
    norm_num [estimateYearsExperience, entryMonths]
  rw [scoreExperience_eval _ _ _ 3 6 (by decide) (by decide) hy]
  have hl : yearsToLevel 6 = 3 := by norm_num [yearsToLevel]
  rw [hl]
  decide

/-- C6 amended: the year thresholds `{<2, <5, <8, <12, ≥12}` bucket a
candidate into levels 1–5 (aligned with ENTRY..EXECUTIVE = 1..5, so 6
years is level 3 = SENIOR), the absolute distance to the target level
maps 0→100, 1→75, 2→50, else→25, and the default 50 applies only when
the target level is missing/empty or the candidate experience is
unknown; a non-empty but unrecognized target level is coerced to level
3 rather than defaulting to 50.  The SENIOR/6-year example scores 100
(distance 0). -/
theorem experience_score_amended :
    (∀ now e, scoreExperience none now e = 50) ∧
    (∀ now e, scoreExperience (some []) now e = 50) ∧
    (∀ t now e, ¬ t = [] → estimateYearsExperience now e = none →
      scoreExperience (some t) now e = 50) ∧
    (∀ t now e y tnum, ¬ t = [] →
      ((EXPERIENCE_LEVELS.find? (fun p => p.1 = pyUpper t)).map
        Prod.snd).getD 3 = tnum →
      estimateYearsExperience now e = some y →
      scoreExperience (some t) now e =
        diffScore (yearsToLevel y - tnum).natAbs) ∧
    (∀ y, yearsToLevel y = if y < 2 then 1 else if y < 5 then 2
      else if y < 8 then 3 else if y < 12 then 4 else 5) ∧
    (∀ d, diffScore d = if d = 0 then 100 else if d = 1 then 75
      else if d = 2 then 50 else 25) ∧
    scoreExperience (some "SENIOR".toList) ⟨2026, 1⟩
      (some [some (⟨2020, 1⟩, some ⟨2026, 1⟩)]) = 100 := by
  refine ⟨fun now e => rfl, fun now e => rfl, ?_, ?_, fun y => rfl,
    fun d => rfl, ?_⟩
  · intro t now e ht hy
    simp only [scoreExperience, if_neg ht, hy]
  · intro t now e y tnum ht hlook hy
    exact scoreExperience_eval t now e tnum y ht hlook hy
  · have hy : estimateYearsExperience ⟨2026, 1⟩
        (some [some (⟨2020, 1⟩, some ⟨2026, 1⟩)]) = some 6 := by
      norm_num [estimateYearsExperience, entryMonths]
    rw [scoreExperience_eval _ _ _ 3 6 (by decide) (by decide) hy]
    have hl : yearsToLevel 6 = 3 := by norm_num [yearsToLevel]
    rw [hl]
    decide

/-- Witness for C6 amended at a concrete input: an unknown-years
candidate with a MID target level scores the default 50. -/
theorem experience_score_amended_witness :
    scoreExperience (some "MID".toList) ⟨2026, 1⟩ none = 50 :=
  experience_score_amended.2.2.1 "MID".toList ⟨2026, 1⟩ none (by decide)
    (by decide)

/-- C7 counterexample: with target "Austin, TX" and candidate location
"TX", the last comma-delimited segments both read "tx", so the claim as
stated assigns 60; the code demands at least two segments on both sides
before comparing the last segments and returns 30. -/
theorem location_score_last_segment_counterexample :
    scoreLocation (some "Austin, TX".toList) (some "TX".toList) = 30 ∧
    scoreLocationClaim (some "Austin, TX".toList) (some "TX".toList) = 60 ∧
    ¬ scoreLocation (some "Austin, TX".toList) (some "TX".toList) =
      scoreLocationClaim (some "Austin, TX".toList) (some "TX".toList) := by
  refine ⟨by decide, by decide, by decide⟩

/-- C7 amended: the location score is 100 on `remote` or an exact
case-insensitive match, 80 when the first comma-delimited segments
(stripped) match, 60 when both sides have at least two comma-delimited
segments and the last segments (stripped) match, otherwise 30, with 50
when the target (or candidate, cf. C10) location is absent or empty;
the four worked examples of the specification all hold. -/
theorem location_score_amended :
    (∀ c, scoreLocation none c = 50) ∧
    (∀ c, scoreLocation (some []) c = 50) ∧
    (∀ t, ¬ t = [] → scoreLocation (some t) none = 50 ∧
      scoreLocation (some t) (some []) = 50) ∧
    (∀ t c, ¬ t = [] → ¬ c = [] →
      (containsSub (pyLower c) "remote".toList ||
          containsSub (pyLower t) "remote".toList) = true →
      scoreLocation (some t) (some c) = 100) ∧
    (∀ t c, ¬ t = [] → ¬ c = [] →
      (containsSub (pyLower c) "remote".toList ||
          containsSub (pyLower t) "remote".toList) = false →
      pyLower c = pyLower t →
      scoreLocation (some t) (some c) = 100) ∧
    (∀ t c, ¬ t = [] → ¬ c = [] →
      (containsSub (pyLower c) "remote".toList ||
          containsSub (pyLower t) "remote".toList) = false →
      ¬ pyLower c = pyLower t →
      pyStrip ((splitComma (pyLower c)).headD []) =
        pyStrip ((splitComma (pyLower t)).headD []) →
      scoreLocation (some t) (some c) = 80) ∧
    (∀ t c, ¬ t = [] → ¬ c = [] →
      (containsSub (pyLower c) "remote".toList ||
          containsSub (pyLower t) "remote".toList) = false →
      ¬ pyLower c = pyLower t →
      ¬ pyStrip ((splitComma (pyLower c)).headD []) =
        pyStrip ((splitComma (pyLower t)).headD []) →
      2 ≤ (splitComma (pyLower c)).length →
      2 ≤ (splitComma (pyLower t)).length →
      pyStrip ((splitComma (pyLower c)).getLastD []) =
        pyStrip ((splitComma (pyLower t)).getLastD []) →
      scoreLocation (some t) (some c) = 60) ∧
    (∀ t c, ¬ t = [] → ¬ c = [] →
      (containsSub (pyLower c) "remote".toList ||
          containsSub (pyLower t) "remote".toList) = false →
      ¬ pyLower c = pyLower t →
      ¬ pyStrip ((splitComma (pyLower c)).headD []) =
        pyStrip ((splitComma (pyLower t)).headD []) →
      ¬ (2 ≤ (splitComma (pyLower c)).length ∧
        2 ≤ (splitComma (pyLower t)).length ∧
        pyStrip ((splitComma (pyLower c)).getLastD []) =
          pyStrip ((splitComma (pyLower t)).getLastD [])) →
      scoreLocation (some t) (some c) = 30) ∧
    scoreLocation (some "Austin, TX".toList) (some "Austin, TX".toList)
        = 100 ∧
    scoreLocation (some "Austin, TX".toList) (some "Dallas, TX".toList)
        = 60 ∧
    scoreLocation (some "Austin, TX".toList) (some "Remote".toList) = 100 ∧
    scoreLocation (some "Boston, MA".toList) (some "Seattle, WA".toList)
        = 30 := by
  refine ⟨fun c => rfl, ?_, ?_, ?_, ?_, ?_, ?_, ?_,
    by decide, by decide, by decide, by decide⟩
  · intro c
    cases c <;> rfl
  · intro t ht
    constructor <;> (simp only [scoreLocation]; split_ifs <;> rfl)
  · intro t c ht hc hrem
    simp only [scoreLocation, if_neg ht, if_neg hc, hrem, if_pos]
  · intro t c ht hc hrem heq
    simp only [scoreLocation, if_neg ht, if_neg hc, hrem, heq,
      Bool.false_eq_true, if_false, if_pos]
    split_ifs <;> rfl
  · intro t c ht hc hrem hne h1
    simp only [scoreLocation, if_neg ht, if_neg hc, hrem,
      Bool.false_eq_true, if_false, if_neg hne, if_pos h1]
  · intro t c ht hc hrem hne h1 hlc hlt h2
    simp only [scoreLocation, if_neg ht, if_neg hc, hrem,
      Bool.false_eq_true, if_false, if_neg hne, if_neg h1, hlc, hlt, h2]
    simp
  · intro t c ht hc hrem hne h1 h2
    simp only [scoreLocation, if_neg ht, if_neg hc, hrem,
      Bool.false_eq_true, if_false, if_neg hne, if_neg h1]
    split_ifs with hb
    · exfalso
      apply h2
      have hb2 := by simpa using hb
      exact ⟨hb2.1.1, hb2.1.2, by simpa using hb2.2⟩
    · rfl

/-- Witness for C7 amended at a concrete input: a remote candidate
scores 100 against a non-remote target. -/
theorem location_score_amended_witness :
    scoreLocation (some "Boston, MA".toList) (some "Remote".toList) = 100 :=
  location_score_amended.2.2.2.1 "Boston, MA".toList "Remote".toList
    (by decide) (by decide) (by decide)

/-- C1 counterexample: the composite score is not always in [0, 100].
The bulk query's semantic value is `(1 - cosineDistance) * 100`, and
pgvector's cosine distance ranges over [0, 2]; at distance 2 the
semantic score is -100, and with skill 0 (candidate without skills),
experience 25 (ENTRY target vs. a 26-year candidate) and location 30
(different city and state) the composite evaluates to -56 < 0. -/
theorem overall_score_range_counterexample :
    overallScore (fillSemantic (semanticScoreSql (some 2)))
        (scoreCandidateSkills ["python".toList] [] [])
        (scoreExperience (some "ENTRY".toList) ⟨2026, 1⟩
          (some [some (⟨2000, 1⟩, some ⟨2026, 1⟩)]))
        (scoreLocation (some "Boston, MA".toList)
          (some "Seattle, WA".toList)) = -56 ∧
    (-56 : ℤ) < 0 := by
  have h1 : scoreCandidateSkills ["python".toList] [] [] = 0 := rfl
  have h2 : scoreExperience (some "ENTRY".toList) ⟨2026, 1⟩
      (some [some (⟨2000, 1⟩, some ⟨2026, 1⟩)]) = 25 := by
    have hy : estimateYearsExperience ⟨2026, 1⟩
        (some [some (⟨2000, 1⟩, some ⟨2026, 1⟩)]) = some 26 := by
      norm_num [estimateYearsExperience, entryMonths]
    rw [scoreExperience_eval _ _ _ 1 26 (by decide) (by decide) hy]
    have hl : yearsToLevel 26 = 5 := by norm_num [yearsToLevel]
    rw [hl]
    decide
  have h3 : scoreLocation (some "Boston, MA".toList)
      (some "Seattle, WA".toList) = 30 := by decide
  have h4 : fillSemantic (semanticScoreSql (some 2)) = -100 := by
    norm_num [fillSemantic, semanticScoreSql]
  rw [h1, h2, h3, h4]
  constructor
  · norm_num [overallScore, roundHalfEven]
  · norm_num

/-- C1 amended: for every candidate row, the composite score equals
`round(semantic*0.60 + skill*0.24 + experience*0.12 + location*0.04)`
with the semantic value `(1 - cosineDistance) * 100` defaulted to 50
when null; and the composite is an integer in [0, 100] whenever the
cosine distance lies in [0, 1] (equivalently, whenever the semantic
score itself lies in [0, 100]) — without that restriction it can be as
low as -56 (see the counterexample). -/
theorem overall_score_formula_and_range_amended
    (dist : Option ℚ) (req pref cand : List PyStr) (tl : Option PyStr)
    (now : YM) (ed : Option (List ExpEntry)) (tLoc cLoc : Option PyStr)
    (hdist : ∀ x, dist = some x → 0 ≤ x ∧ x ≤ 1) :
    overallScore (fillSemantic (semanticScoreSql dist))
        (scoreCandidateSkills req pref cand)
        (scoreExperience tl now ed) (scoreLocation tLoc cLoc) =
      roundHalfEven (fillSemantic (semanticScoreSql dist) * (60/100) +
        (scoreCandidateSkills req pref cand : ℚ) * (24/100) +
        (scoreExperience tl now ed : ℚ) * (12/100) +
        (scoreLocation tLoc cLoc : ℚ) * (4/100)) ∧
    0 ≤ overallScore (fillSemantic (semanticScoreSql dist))
        (scoreCandidateSkills req pref cand)
        (scoreExperience tl now ed) (scoreLocation tLoc cLoc) ∧
    overallScore (fillSemantic (semanticScoreSql dist))
        (scoreCandidateSkills req pref cand)
        (scoreExperience tl now ed) (scoreLocation tLoc cLoc) ≤ 100 := by
  have hsem : 0 ≤ fillSemantic (semanticScoreSql dist) ∧
      fillSemantic (semanticScoreSql dist) ≤ 100 := by
    cases dist with
    | none => norm_num [fillSemantic, semanticScoreSql]
    | some x =>
      obtain ⟨hx0, hx1⟩ := hdist x rfl
      simp only [fillSemantic, semanticScoreSql, Option.map_some',
        Option.getD_some]
      constructor <;> nlinarith
  obtain ⟨hs0, hs1⟩ := hsem
  obtain ⟨hk0, hk1⟩ := scoreCandidateSkills_bounds req pref cand
  obtain ⟨he0, he1⟩ := scoreExperience_bounds tl now ed
  obtain ⟨hl0, hl1⟩ := scoreLocation_bounds tLoc cLoc
  have hk0q : (0 : ℚ) ≤ (scoreCandidateSkills req pref cand : ℚ) := by
    exact_mod_cast hk0
  have hk1q : (scoreCandidateSkills req pref cand : ℚ) ≤ 100 := by
    exact_mod_cast hk1
  have he0q : (25 : ℚ) ≤ (scoreExperience tl now ed : ℚ) := by
    exact_mod_cast he0
  have he1q : (scoreExperience tl now ed : ℚ) ≤ 100 := by
    exact_mod_cast he1
  have hl0q : (30 : ℚ) ≤ (scoreLocation tLoc cLoc : ℚ) := by
    exact_mod_cast hl0
  have hl1q : (scoreLocation tLoc cLoc : ℚ) ≤ 100 := by
    exact_mod_cast hl1
  simp only [overallScore]
  refine ⟨trivial, ?_, ?_⟩
  · exact roundHalfEven_nonneg (by linarith)
  · apply roundHalfEven_le
    have h100 : ((100 : ℤ) : ℚ) = 100 := by norm_num
    rw [h100]
    linarith

/-- C8: The pagination loop stops, at each iteration, exactly when the
first of the three stop conditions holds there: a partial page, the
configured positive maximum record count reached, or a third
consecutive empty page (a zero/absent maximum never stops the loop —
Python truthiness).  In particular 2,500 records served as pages of
1,000/1,000/500 stop the extractor after the partial third page with
exactly 3 fetches issued, whatever later pages would have contained —
no fourth fetch happens. -/
theorem pagination_termination :
    (∀ junk : ℕ → List ℕ,
      (extractPaginated 1000 none 0
        (fun p => if p = 0 ∨ p = 1 then List.replicate 1000 0
          else if p = 2 then List.replicate 500 0 else junk p) 10).2 = 3 ∧
      (extractPaginated 1000 none 0
        (fun p => if p = 0 ∨ p = 1 then List.replicate 1000 0
          else if p = 2 then List.replicate 500 0 else junk p) 10).1.length
        = 2500) ∧
    (∀ (α : Type) (pages : ℕ → List α) (pageSize : ℕ)
      (maxRecords : Option ℕ) (fuel : ℕ) (acc : List α)
      (page total consec fetches : ℕ), 2 ≤ fuel →
      ((extractLoop pageSize maxRecords pages fuel acc page total consec
          fetches).2 = fetches + 1 ↔
        (pages page = [] ∧ 3 ≤ consec + 1) ∨
        (¬ pages page = [] ∧
          ((∃ m, maxRecords = some m ∧ ¬ m = 0 ∧
              m ≤ total + (pages page).length) ∨
            (pages page).length < pageSize)))) := by
  have key : ∀ pages : ℕ → List ℕ,
      pages 0 = List.replicate 1000 0 →
      pages 1 = List.replicate 1000 0 →
      pages 2 = List.replicate 500 0 →
      extractLoop 1000 none pages 10 [] 0 0 0 0 =
        ((([] ++ List.replicate 1000 0) ++ List.replicate 1000 0) ++
          List.replicate 500 0, 0 + 1 + 1 + 1) := by
    intro pages h0 h1 h2
    have e1 : (0 : ℕ) + 1 = 1 := rfl
    have e2 : (0 : ℕ) + 1 + 1 = 2 := rfl
    have hrep1000 : (List.replicate 1000 (0 : ℕ)).isEmpty = false := rfl
    have hrep500 : (List.replicate 500 (0 : ℕ)).isEmpty = false := rfl
    have hlen1000 : (List.replicate 1000 (0 : ℕ)).length = 1000 :=
      List.length_replicate _ _
    have hlen500 : (List.replicate 500 (0 : ℕ)).length = 500 :=
      List.length_replicate _ _
    rw [show (10 : ℕ) = 9 + 1 from rfl]
    rw [extractLoop_step_full 1000 none pages 9 [] 0 0 0 0
      (by rw [h0]; exact hrep1000) rfl
      (by rw [h0, hlen1000]; omega)]
    rw [show (9 : ℕ) = 8 + 1 from rfl]
    rw [extractLoop_step_full 1000 none pages 8 ([] ++ pages 0) (0 + 1)
      (0 + (pages 0).length) 0 (0 + 1)
      (by rw [e1, h1]; exact hrep1000) rfl
      (by rw [e1, h1, hlen1000]; omega)]
    rw [show (8 : ℕ) = 7 + 1 from rfl]
    rw [extractLoop_stop_last 1000 none pages 7
      (([] ++ pages 0) ++ pages (0 + 1)) (0 + 1 + 1)
      (0 + (pages 0).length + (pages (0 + 1)).length) 0 (0 + 1 + 1)
      (by rw [e2, h2]; exact hrep500) rfl
      (by rw [e2, h2, hlen500]; omega)]
    rw [h0, e1, h1, e2, h2]
  constructor
  · intro junk
    have hrun := key
      (fun p => if p = 0 ∨ p = 1 then List.replicate 1000 0
        else if p = 2 then List.replicate 500 0 else junk p)
      (by norm_num) (by norm_num) (by norm_num)
    constructor
    · show (extractLoop 1000 none _ 10 [] 0 0 0 0).2 = 3
      rw [hrun]
    · show (extractLoop 1000 none _ 10 [] 0 0 0 0).1.length = 2500
      rw [hrun]
      simp only [List.length_append, List.length_replicate,
        List.length_nil]
  · intro α pages pageSize maxRecords fuel acc page total consec fetches
      hfuel
    obtain ⟨k, rfl⟩ : ∃ k, fuel = k + 2 := ⟨fuel - 2, by omega⟩
    rw [show k + 2 = (k + 1) + 1 from rfl, extractLoop_succ]
    by_cases he : pages page = []
    · have hb : (pages page).isEmpty = true := List.isEmpty_iff.mpr he
      simp only [hb, if_true]
      by_cases h3 : 3 ≤ consec + 1
      · simp only [if_pos h3]
        exact ⟨fun _ => Or.inl ⟨he, h3⟩, fun _ => trivial⟩
      · simp only [if_neg h3]
        have hge := extractLoop_fetches_lt pageSize maxRecords pages
          (k + 1) acc (page + 1) total (consec + 1) (fetches + 1)
          (by omega)
        constructor
        · intro hEq
          omega
        · rintro (⟨_, h3'⟩ | ⟨hne, _⟩)
          · exact absurd h3' h3
          · exact absurd he hne
    · have hb : (pages page).isEmpty = false := isEmpty_false_of_ne_nil he
      simp only [hb, Bool.false_eq_true, if_false]
      by_cases hm : maxReached maxRecords (total + (pages page).length)
          = true
      · simp only [hm, if_true]
        exact ⟨fun _ => Or.inr ⟨he, Or.inl ((maxReached_iff _ _).mp hm)⟩,
          fun _ => trivial⟩
      · have hm2 : maxReached maxRecords (total + (pages page).length)
            = false := by
          cases hmr : maxReached maxRecords (total + (pages page).length)
          · rfl
          · exact absurd hmr hm
        simp only [hm2, Bool.false_eq_true, if_false]
        by_cases hp : (pages page).length < pageSize
        · simp only [if_pos hp]
          exact ⟨fun _ => Or.inr ⟨he, Or.inr hp⟩,
            fun _ => trivial⟩
        · simp only [if_neg hp]
          have hge := extractLoop_fetches_lt pageSize maxRecords pages
            (k + 1) (acc ++ pages page) (page + 1)
            (total + (pages page).length) 0 (fetches + 1) (by omega)
          constructor
          · intro hEq
            omega
          · rintro (⟨he2, _⟩ | ⟨_, hor⟩)
            · exact absurd he2 he
            · rcases hor with hex | hp'
              · exact absurd ((maxReached_iff _ _).mpr hex)
                  (by simp [hm2])
              · exact absurd hp' hp

/-- Witness for C8: the single-iteration characterization applied at a
concrete one-record partial page. -/
theorem pagination_termination_witness :
    (extractLoop 5 none (fun _ => [0]) 4 ([] : List ℕ) 0 0 0 0).2 = 0 + 1 :=
  (pagination_termination.2 ℕ (fun _ => [0]) 5 none 4 [] 0 0 0 0
    (by decide)).mpr (Or.inr ⟨by decide, Or.inr (by decide)⟩)

/-- Witness for C1 amended with a null semantic score (defaulted 50)
and empty inputs everywhere else. -/
theorem overall_score_formula_and_range_amended_witness :
    0 ≤ overallScore (fillSemantic (semanticScoreSql none))
        (scoreCandidateSkills [] [] [])
        (scoreExperience none ⟨2026, 1⟩ none) (scoreLocation none none) ∧
    overallScore (fillSemantic (semanticScoreSql none))
        (scoreCandidateSkills [] [] [])
        (scoreExperience none ⟨2026, 1⟩ none) (scoreLocation none none)
      ≤ 100 :=
  ⟨(overall_score_formula_and_range_amended none [] [] [] none ⟨2026, 1⟩
      none none none (by simp)).2.1,
   (overall_score_formula_and_range_amended none [] [] [] none ⟨2026, 1⟩
      none none none (by simp)).2.2⟩

/-- C2: `bulk_upsert` absorbs row-level validation failures and
chunk-level execution failures instead of raising: invalid rows are
skipped (and counted across the whole input, so processing always
reaches every chunk), a chunk whose execution fails — after bounded
retries that stop once every attempt in the budget was transient —
contributes `failed` for its record count and nothing to the committed
writes (its savepoint was rolled back), while the writes of every
successfully executed chunk remain committed. -/
theorem bulk_upsert_error_isolation (Row Rec : Type) (v : Row → Bool)
    (t : Row → Rec) (a : ℕ → ℕ → List Rec → AttemptOutcome) (m bs : ℕ)
    (df : List Row) (hbs : 0 < bs) :
    (bulkUpsert v t a m bs df).2 =
      ((List.enumFrom 0 (streamBatches bs df)).filter
        (fun p => batchSucceeds v t a m p.1 p.2)).flatMap
        (fun p => validRecords v t p.2) ∧
    (bulkUpsert v t a m bs df).1.failed =
      (((List.enumFrom 0 (streamBatches bs df)).filter
        (fun p => batchFails v t a m p.1 p.2)).map
        (fun p => (validRecords v t p.2).length)).sum ∧
    (bulkUpsert v t a m bs df).1.skipped =
      (df.filter (fun r => !v r)).length ∧
    (∀ (att : ℕ → AttemptOutcome) (n : ℕ),
      (∀ j, j < n → att j = .transientErr) → execRetry att 0 n = none) := by
  refine ⟨?_, ?_, ?_, ?_⟩
  · unfold bulkUpsert
    by_cases hdf : df.isEmpty
    · rw [if_pos hdf]
      have hnil : df = [] := List.isEmpty_iff.mp hdf
      subst hnil
      rw [streamBatches]
      simp
    · rw [if_neg hdf]
      rw [runBatches_committed v t a m (streamBatches bs df) 0
        (UpsertResult.empty, [])]
      simp
  · unfold bulkUpsert
    by_cases hdf : df.isEmpty
    · rw [if_pos hdf]
      have hnil : df = [] := List.isEmpty_iff.mp hdf
      subst hnil
      rw [streamBatches]
      simp [UpsertResult.empty]
    · rw [if_neg hdf]
      rw [runBatches_failed v t a m (streamBatches bs df) 0
        (UpsertResult.empty, [])]
      simp [UpsertResult.empty]
  · unfold bulkUpsert
    by_cases hdf : df.isEmpty
    · rw [if_pos hdf]
      have hnil : df = [] := List.isEmpty_iff.mp hdf
      subst hnil
      simp [UpsertResult.empty]
    · rw [if_neg hdf]
      rw [runBatches_skipped v t a m (streamBatches bs df) 0
        (UpsertResult.empty, [])]
      rw [filterLength_flatten, streamBatches_join bs hbs df]
      simp [UpsertResult.empty]
  · intro att n h
    apply execRetry_all_transient
    intro j hj
    simpa using h j hj

/-- Witness for C2 at a concrete run: all chunk executions fail fatally,
yet the odd rows are still counted skipped across both chunks. -/
theorem bulk_upsert_error_isolation_witness :
    (bulkUpsert (fun r => decide (r % 2 = 0)) (fun r : ℕ => r)
        (fun _ _ _ => AttemptOutcome.fatalErr) 1 2 [1, 2, 3]).1.skipped =
      ([1, 2, 3].filter (fun r => !(decide (r % 2 = 0)))).length :=
  (bulk_upsert_error_isolation ℕ ℕ (fun r => decide (r % 2 = 0))
    (fun r : ℕ => r) (fun _ _ _ => AttemptOutcome.fatalErr) 1 2 [1, 2, 3]
    (by decide)).2.2.1

/-- C3: Whenever the database returns one `xmax` marker per executed
row (the semantics of `INSERT ... RETURNING xmax`), the counters of the
`UpsertResult` returned by `bulk_upsert` account for every input row:
`inserted + updated + failed + skipped` equals the input row count. -/
theorem bulk_upsert_row_accounting (Row Rec : Type) (v : Row → Bool)
    (t : Row → Rec) (a : ℕ → ℕ → List Rec → AttemptOutcome) (m bs : ℕ)
    (df : List Row) (hbs : 0 < bs)
    (hflags : ∀ i k recs flags, a i k recs = .ok flags →
      flags.length = recs.length) :
    (bulkUpsert v t a m bs df).1.inserted +
      (bulkUpsert v t a m bs df).1.updated +
      (bulkUpsert v t a m bs df).1.failed +
      (bulkUpsert v t a m bs df).1.skipped = df.length := by
  unfold bulkUpsert
  by_cases hdf : df.isEmpty
  · rw [if_pos hdf]
    have hnil : df = [] := List.isEmpty_iff.mp hdf
    subst hnil
    rfl
  · rw [if_neg hdf]
    rw [runBatches_sum v t a m hflags (streamBatches bs df) 0
      (UpsertResult.empty, [])]
    have h1 : ((streamBatches bs df).map List.length).sum =
        (streamBatches bs df).flatten.length :=
      (List.length_flatten _).symm
    rw [h1, streamBatches_join bs hbs df]
    simp [UpsertResult.empty]

/-- Witness for C3 at a concrete run: three valid rows over chunks of
two, with a database oracle answering one zero `xmax` per record. -/
theorem bulk_upsert_row_accounting_witness :
    (bulkUpsert (fun _ : ℕ => true) (fun r : ℕ => r)
        (fun _ _ recs => AttemptOutcome.ok (recs.map (fun _ => 0))) 3 2
        [4, 5, 6]).1.inserted +
      (bulkUpsert (fun _ : ℕ => true) (fun r : ℕ => r)
        (fun _ _ recs => AttemptOutcome.ok (recs.map (fun _ => 0))) 3 2
        [4, 5, 6]).1.updated +
      (bulkUpsert (fun _ : ℕ => true) (fun r : ℕ => r)
        (fun _ _ recs => AttemptOutcome.ok (recs.map (fun _ => 0))) 3 2
        [4, 5, 6]).1.failed +
      (bulkUpsert (fun _ : ℕ => true) (fun r : ℕ => r)
        (fun _ _ recs => AttemptOutcome.ok (recs.map (fun _ => 0))) 3 2
        [4, 5, 6]).1.skipped = [4, 5, 6].length :=
  bulk_upsert_row_accounting ℕ ℕ (fun _ : ℕ => true) (fun r : ℕ => r)
    (fun _ _ recs => AttemptOutcome.ok (recs.map (fun _ => 0))) 3 2
    [4, 5, 6] (by decide)
    (fun i k recs flags h => by
      cases h
      exact List.length_map _ _)

end ReferralSystem
